import Mathlib

/-!
Verification development for the `powerdns_record` Ansible module
(`powerdns_record.py`).

The module reconciles a single DNS recordset (identified by name and type)
against a PowerDNS server.  We embed the pure comparator functions
(`serial`, `ignore_serial`, `matches_existing_content`, the TXT/AAAA input
sanitization, `_make_canonical`) directly, and embed the stateful
reconciler `ensure` as a function from the module parameters and the remote
recordset state to a result, a trace of API calls, and the successor remote
state.

Modelling conventions:
* The remote server state for the single (name, type) recordset under
  reconciliation is `Option Rrset`; `none` means the recordset does not
  exist.  `get_record` on a missing recordset returns an empty rrset
  value whose `ttl` lookup (`record.get('ttl', None)`) yields `none`,
  modelled by `RrsetView`.
* A PATCH with changetype REPLACE stores the submitted content list and
  TTL; submitting an empty content list removes the recordset (PowerDNS
  API semantics).  Changetype DELETE removes the recordset.
* Python exceptions escaping `ensure` (the IndexError raised by
  `serial` on an SOA content string with fewer than three
  space-separated fields) are modelled as `Except.error`.
* Python's `set(...)` is modelled as `List.dedup` (iteration order of a
  Python set is unspecified; every property proved below depends only on
  membership and distinct-element count).
* Single-character `str.startswith` / `str.endswith` tests are modelled
  via `List.head?` / `List.getLast?` on the character list, and
  `str.strip('"')` as dropping the maximal runs of `'"'` at both ends.
* The name/zone munging at the top of `ensure` (trailing-dot stripping
  and zone suffixing) only computes the identity of the one recordset
  being reconciled and is applied identically on every invocation; it is
  outside the reconciliation state machine modelled here.
  `_make_canonical` is embedded separately.
-/

/-- Python `str.split(sep)` for a single-character separator, on the
character list.  Empty fields are preserved and the empty string yields
one empty field, exactly as in Python.  (Defined structurally so that
concrete instances evaluate inside the kernel.) -/
def splitChar (sep : Char) : List Char → List (List Char)
  | [] => [[]]
  | c :: rest =>
    match splitChar sep rest with
    | [] => [[c]]
    | h :: t => if c = sep then [] :: h :: t else (c :: h) :: t

/-- Python `content.split(' ')` as a list of strings. -/
def pyFields (content : String) : List String :=
  (splitChar ' ' content.toList).map String.mk

/-- The third space-separated field of an SOA content string
(`content.split(' ')[2]`); `none` models the Python IndexError when there
are fewer than three fields. -/
def serial (content : String) : Option String :=
  (pyFields content)[2]?

/-- The SOA content string with the serial (third field) removed:
`' '.join(parts[:2] + parts[3:])`. -/
def ignore_serial (content : String) : String :=
  let parts := pyFields content
  " ".intercalate (parts.take 2 ++ parts.drop 3)

/-- Source `matches_existing_content(rtype, content, existing_content)`:
for SOA records whose desired serial is `"0"`, compares serial-stripped
content against the serial-stripped existing entries; otherwise exact
string membership.  `none` models the IndexError from `serial` on an SOA
content string with fewer than three fields. -/
def matches_existing_content (rtype content : String)
    (existing_content : List String) : Option Bool :=
  if rtype = "SOA" then
    match serial content with
    | none => none
    | some s =>
      if s = "0" then
        some (decide (ignore_serial content ∈ existing_content.map ignore_serial))
      else
        some (decide (content ∈ existing_content))
  else
    some (decide (content ∈ existing_content))

/-- Source `PowerDNSClient._make_canonical`: append a trailing dot unless the
name already ends with one. -/
def _make_canonical (name : String) : String :=
  if name.toList.getLast? = some '.' then name else name ++ "."

/-- The maximal runs of `'"'` removed from both ends of a character list;
models Python `str.strip('"')`. -/
def stripQuoteChars (l : List Char) : List Char :=
  ((l.dropWhile (fun ch => decide (ch = '"'))).reverse.dropWhile
    (fun ch => decide (ch = '"'))).reverse

/-- The TXT sanitization step of `ensure`: if the item does not both start
and end with a double quote, strip all surrounding double quotes and wrap
in one pair (`'"{}"'.format(item.strip('"'))`); otherwise leave it
unchanged. -/
def txtNormalize (s : String) : String :=
  if s.toList.head? = some '"' ∧ s.toList.getLast? = some '"' then s
  else String.mk ('"' :: (stripQuoteChars s.toList ++ ['"']))

/-- The input sanitization block of `ensure`: AAAA content is lowercased,
TXT content is quote-normalized, all other types pass through. -/
def sanitize (rtype : String) (content : List String) : List String :=
  let c1 := if rtype = "AAAA" then content.map String.toLower else content
  if rtype = "TXT" then c1.map txtNormalize else c1

/-- Stored state of the one recordset under reconciliation. -/
structure Rrset where
  records : List String
  ttl : Nat
deriving DecidableEq

/-- What `get_record` returns: the records' content strings, and the
result of `record.get('ttl', None)` (`none` when the recordset was not
found and the fallback empty dict is used). -/
structure RrsetView where
  records : List String
  ttl : Option Nat
deriving DecidableEq

/-- The rrset value observed by reading remote state `st`. -/
def view : Option Rrset → RrsetView
  | none => ⟨[], none⟩
  | some r => ⟨r.records, some r.ttl⟩

/-- Successor remote state after a REPLACE with the given content and TTL;
an empty content list removes the recordset. -/
def replaceState (content : List String) (ttl : Nat) : Option Rrset :=
  if content.isEmpty then none else some ⟨content, ttl⟩

/-- One remote API call issued by `ensure`. -/
inductive Call where
  | read : Call
  | replace : List String → Nat → Call
  | delete : Call
deriving DecidableEq

/-- Module parameters consumed by `ensure` (the fields that influence the
reconciliation decision; `disabled`, `set_ptr` and the connection
parameters do not). -/
structure Params where
  content : List String
  exclusive : Bool
  rtype : String
  ttl : Nat
  state : String
  checkMode : Bool
deriving DecidableEq

/-- Parameters `p` with the check-mode flag replaced. -/
def setCheck (p : Params) (b : Bool) : Params :=
  ⟨p.content, p.exclusive, p.rtype, p.ttl, p.state, b⟩

/-- The action `ensure` decides on (before check-mode gating). -/
inductive RAction where
  | crash : RAction
  | noop : RAction
  | update : List String → RAction
  | remove : RAction
deriving DecidableEq

/-- The `for item in content` loop of `ensure`, accumulating the items
with `not matches_existing_content(...) or record.get('ttl', None) != ttl`;
`none` models the propagated IndexError from `serial`. -/
def collectNoMatch (rtype : String) (existing : List String) (ttlNe : Bool) :
    List String → Option (List String)
  | [] => some []
  | c :: rest =>
    match matches_existing_content rtype c existing with
    | none => none
    | some m =>
      match collectNoMatch rtype existing ttlNe rest with
      | none => none
      | some r => some (if !m || ttlNe then c :: r else r)

/-- The `state == 'present'`, recordset-exists decision of `ensure`:
build `record_content` from the desired items that fail
`matches_existing_content` (or all items on TTL mismatch), apply the
exclusive superset override (`len(set(existing)) > len(set(content))`),
and if non-empty compute the submitted content
(`set(record_content + content)`, prefixed by the existing entries when
not exclusive).  `none` models the propagated IndexError; `some none` is
the fall-through no-op; `some (some rc)` is a REPLACE with `rc`. -/
def presentTarget (rtype : String) (exclusive : Bool)
    (content existing : List String) (ttlNe : Bool) :
    Option (Option (List String)) :=
  match collectNoMatch rtype existing ttlNe content with
  | none => none
  | some r0 =>
    let r1 := if existing.dedup.length > content.dedup.length && exclusive
              then content else r0
    if r1.isEmpty then some none
    else
      let rc := (r1 ++ content).dedup
      some (some (if exclusive then rc
                  else existing ++ rc.filter (fun x => decide (x ∉ existing))))

/-- The decision `ensure` makes from the module parameters and the read
rrset snapshot. -/
def decideAction (p : Params) (record : RrsetView) : RAction :=
  let existing := record.records
  let content := sanitize p.rtype p.content
  if p.state = "present" then
    if existing.isEmpty then RAction.update content
    else
      match presentTarget p.rtype p.exclusive content existing
          (decide (record.ttl ≠ some p.ttl)) with
      | none => RAction.crash
      | some none => RAction.noop
      | some (some rc) => RAction.update rc
  else if p.state = "absent" then
    if !existing.isEmpty && p.exclusive then RAction.remove
    else if !existing.isEmpty && !p.exclusive then
      let rc := existing.filter fun x => decide (x ∉ content)
      if rc.length ≠ existing.length then RAction.update rc else RAction.noop
    else RAction.noop
  else RAction.noop

/-- Result of one `ensure` invocation: the returned
`(changed, record-or-None)` pair (or a propagated exception), the trace of
remote API calls, and the successor remote state. -/
structure SimOut where
  result : Except Unit (Bool × Option RrsetView)
  calls : List Call
  state : Option Rrset

/-- The reconciler `ensure`, as a function of the module parameters and
the remote recordset state.  Mirrors the source: one read, the decision of
`decideAction`, at most one mutating call (skipped in check mode), and a
re-read on the REPLACE paths. -/
def ensure (p : Params) (st : Option Rrset) : SimOut :=
  let record := view st
  match decideAction p record with
  | RAction.crash => ⟨Except.error (), [Call.read], st⟩
  | RAction.noop => ⟨Except.ok (false, some record), [Call.read], st⟩
  | RAction.update rc =>
    let st1 := if p.checkMode then st else replaceState rc p.ttl
    ⟨Except.ok (true, some (view st1)),
      [Call.read] ++ (if p.checkMode then [] else [Call.replace rc p.ttl])
        ++ [Call.read],
      st1⟩
  | RAction.remove =>
    let st1 := if p.checkMode then st else none
    ⟨Except.ok (true, none),
      [Call.read] ++ (if p.checkMode then [] else [Call.delete]),
      st1⟩

/-- The `changed` flag of an invocation, `none` if it raised. -/
def changedOf (o : SimOut) : Option Bool :=
  match o.result with
  | Except.ok r => some r.1
  | Except.error _ => none

/-- Well-formedness of the desired content for the record type: SOA
content strings must have at least three space-separated fields (otherwise
`serial` raises). -/
def wfContent (p : Params) : Prop :=
  p.rtype = "SOA" → ∀ c ∈ p.content, 2 < (pyFields c).length

/-- The condition under which the exclusive present-state branch issues a
REPLACE (derived below to be exactly when `ensure` rewrites): non-empty
desired content and (TTL mismatch, or some desired entry failing
`matches_existing_content`, or strictly more distinct existing entries
than distinct desired entries). -/
def exclusiveTrigger (p : Params) (r : Rrset) : Prop :=
  sanitize p.rtype p.content ≠ [] ∧
    (r.ttl ≠ p.ttl
      ∨ (∃ c ∈ sanitize p.rtype p.content,
          matches_existing_content p.rtype c r.records ≠ some true)
      ∨ (sanitize p.rtype p.content).dedup.length < r.records.dedup.length)

/-- The condition under which the non-exclusive present-state branch
issues a REPLACE: non-empty desired content and (TTL mismatch or some
desired entry failing `matches_existing_content`). -/
def mergeTrigger (p : Params) (r : Rrset) : Prop :=
  sanitize p.rtype p.content ≠ [] ∧
    (r.ttl ≠ p.ttl
      ∨ ∃ c ∈ sanitize p.rtype p.content,
          matches_existing_content p.rtype c r.records ≠ some true)

example : serial "ns1 hostmaster 0 3600" = some "0" := by decide
example : matches_existing_content "SOA" "ns1 hostmaster 0 3600"
    ["ns1 hostmaster 99 3600"] = some true := by decide
example : matches_existing_content "SOA" "ns1 hostmaster 7 3600"
    ["ns1 hostmaster 99 3600"] = some false := by decide
example : txtNormalize "hello" = "\"hello\"" := by decide
example : txtNormalize "\"hello\"" = "\"hello\"" := by decide
example : _make_canonical "a.b" = "a.b." := by decide
example : _make_canonical "a.." = "a.." := by decide

/-! ## String and list helper lemmas -/

theorem toList_mk (l : List Char) : (String.mk l).toList = l := rfl

theorem toList_append (s t : String) : (s ++ t).toList = s.toList ++ t.toList := by
  cases s
  cases t
  rfl

theorem dropWhile_head_false {α : Type} (p : α → Bool) :
    ∀ (l : List α) (a : α), (l.dropWhile p).head? = some a → p a = false := by
  intro l
  induction l with
  | nil => intro a h; simp [List.dropWhile] at h
  | cons x xs ih =>
    intro a h
    by_cases hx : p x = true
    · rw [List.dropWhile_cons_of_pos hx] at h
      exact ih a h
    · rw [List.dropWhile_cons_of_neg hx] at h
      simp only [List.head?_cons, Option.some.injEq] at h
      subst h
      exact Bool.of_not_eq_true hx

theorem dropWhile_getLast?_eq {α : Type} (p : α → Bool) :
    ∀ (l : List α), l.dropWhile p ≠ [] →
      (l.dropWhile p).getLast? = l.getLast? := by
  intro l
  induction l with
  | nil => simp [List.dropWhile]
  | cons x xs ih =>
    intro h
    by_cases hx : p x = true
    · rw [List.dropWhile_cons_of_pos hx] at h ⊢
      have hxs : xs ≠ [] := by
        intro e
        rw [e] at h
        simp [List.dropWhile] at h
      rw [ih h]
      cases xs with
      | nil => exact absurd rfl hxs
      | cons y ys => rw [List.getLast?_cons_cons]
    · rw [List.dropWhile_cons_of_neg hx]

theorem stripQuoteChars_getLast?_ne (l : List Char) (a : Char)
    (h : (stripQuoteChars l).getLast? = some a) : a ≠ '"' := by
  unfold stripQuoteChars at h
  rw [List.getLast?_reverse] at h
  have hfalse := dropWhile_head_false _ _ _ h
  intro e
  rw [e] at hfalse
  simp at hfalse

theorem stripQuoteChars_head?_ne (l : List Char) (a : Char)
    (h : (stripQuoteChars l).head? = some a) : a ≠ '"' := by
  unfold stripQuoteChars at h
  rw [List.head?_reverse] at h
  by_cases hnil :
      ((l.dropWhile (fun ch => decide (ch = '"'))).reverse.dropWhile
        (fun ch => decide (ch = '"'))) = []
  · rw [hnil] at h
    simp at h
  · rw [dropWhile_getLast?_eq _ _ hnil, List.getLast?_reverse] at h
    have hfalse := dropWhile_head_false _ _ _ h
    intro e
    rw [e] at hfalse
    simp at hfalse

/-! ## Name canonicalization (`_make_canonical`) -/

theorem make_canonical_trailing (s : String) :
    (_make_canonical s).toList.getLast? = some '.' := by
  unfold _make_canonical
  by_cases h : s.toList.getLast? = some '.'
  · rw [if_pos h]
    exact h
  · rw [if_neg h, toList_append]
    exact List.getLast?_concat _

/-! ## TXT normalization helpers -/

theorem txtNormalize_head (s : String) :
    (txtNormalize s).toList.head? = some '"' := by
  unfold txtNormalize
  by_cases h : s.toList.head? = some '"' ∧ s.toList.getLast? = some '"'
  · rw [if_pos h]
    exact h.1
  · rw [if_neg h, toList_mk]
    rfl

theorem txtNormalize_last (s : String) :
    (txtNormalize s).toList.getLast? = some '"' := by
  unfold txtNormalize
  by_cases h : s.toList.head? = some '"' ∧ s.toList.getLast? = some '"'
  · rw [if_pos h]
    exact h.2
  · rw [if_neg h, toList_mk, ← List.cons_append]
    exact List.getLast?_concat _

/-! ## Comparator helpers -/

theorem matches_isSome (rtype c : String) (existing : List String)
    (hwf : rtype = "SOA" → 2 < (pyFields c).length) :
    (matches_existing_content rtype c existing).isSome := by
  by_cases hr : rtype = "SOA"
  · obtain ⟨s, hs⟩ : ∃ s, serial c = some s :=
      ⟨_, by unfold serial; exact List.getElem?_eq_getElem (hwf hr)⟩
    subst hr
    by_cases h0 : s = "0" <;> simp [matches_existing_content, hs, h0]
  · simp [matches_existing_content, hr]

theorem matches_of_mem (rtype c : String) (existing : List String)
    (hmem : c ∈ existing) (hwf : rtype = "SOA" → 2 < (pyFields c).length) :
    matches_existing_content rtype c existing = some true := by
  by_cases hr : rtype = "SOA"
  · obtain ⟨s, hs⟩ : ∃ s, serial c = some s :=
      ⟨_, by unfold serial; exact List.getElem?_eq_getElem (hwf hr)⟩
    subst hr
    by_cases h0 : s = "0"
    · simp [matches_existing_content, hs, h0]
      exact ⟨c, hmem, rfl⟩
    · simp [matches_existing_content, hs, h0, hmem]
  · simp [matches_existing_content, hr, hmem]

/-! ## Claims about the comparator and normalizers (C6, C7, C8, C10) -/

/-- C6: for SOA desired content with serial `"0"`, `matches_existing_content`
compares the serial-stripped desired content against the serial-stripped
form of every existing entry (hence returns true against a stored entry
differing only in serial); for a non-zero desired serial, and for every
non-SOA type, the result is exact string membership in the existing set. -/
theorem claim_C6_soa_wildcard (rtype c : String) (existing : List String) :
    (serial c = some "0" →
      matches_existing_content "SOA" c existing
        = some (decide (ignore_serial c ∈ existing.map ignore_serial))) ∧
    (serial c = some "0" → ∀ e ∈ existing, ignore_serial e = ignore_serial c →
      matches_existing_content "SOA" c existing = some true) ∧
    (∀ s, serial c = some s → s ≠ "0" →
      matches_existing_content "SOA" c existing = some (decide (c ∈ existing))) ∧
    (rtype ≠ "SOA" →
      matches_existing_content rtype c existing = some (decide (c ∈ existing))) := by
  refine ⟨?_, ?_, ?_, ?_⟩
  · intro h
    simp [matches_existing_content, h]
  · intro h e he heq
    have hm : ignore_serial c ∈ existing.map ignore_serial :=
      heq ▸ List.mem_map_of_mem _ he
    simp [matches_existing_content, h, hm]
  · intro s hs hne
    simp [matches_existing_content, hs, hne]
  · intro h
    simp [matches_existing_content, h]

/-- Witness for C6 at the spec's own examples: serial `0` matches a stored
entry with serial `99`; a differing non-zero serial does not match; a
non-SOA type uses exact membership. -/
theorem claim_C6_soa_wildcard_witness :
    matches_existing_content "SOA" "ns1 hostmaster 0 3600"
      ["ns1 hostmaster 99 3600"] = some true ∧
    matches_existing_content "SOA" "ns1 hostmaster 7 3600"
      ["ns1 hostmaster 99 3600"] = some false ∧
    matches_existing_content "A" "192.0.2.1" ["192.0.2.9"] = some false := by
  refine ⟨?_, ?_, ?_⟩
  · exact (claim_C6_soa_wildcard "SOA" "ns1 hostmaster 0 3600"
      ["ns1 hostmaster 99 3600"]).2.1 (by decide)
      "ns1 hostmaster 99 3600" (by decide) (by decide)
  · rw [(claim_C6_soa_wildcard "SOA" "ns1 hostmaster 7 3600"
      ["ns1 hostmaster 99 3600"]).2.2.1 "7" (by decide) (by decide)]
    decide
  · rw [(claim_C6_soa_wildcard "A" "192.0.2.1" ["192.0.2.9"]).2.2.2 (by decide)]
    decide

/-- C7 counterexample: the claim says every input comes out wrapped in
exactly one pair of double quotes, but the single character `"` already
both starts and ends with a quote, so it is left unchanged — a one-character
string, which cannot consist of a wrapping pair. -/
theorem claim_C7_counterexample :
    txtNormalize "\"" = "\"" ∧ (txtNormalize "\"").length = 1 := by
  constructor <;> decide

/-- C7 as amended: TXT normalization is idempotent and its result always
starts and ends with a double quote; any input that does not already both
start and end with a quote is stripped of all surrounding quotes and
wrapped in exactly one pair (the stripped core neither starts nor ends
with a quote).  Inputs already starting and ending with a quote — such as
the lone `"` — are left unchanged. -/
theorem claim_C7_amended (s : String) :
    txtNormalize (txtNormalize s) = txtNormalize s ∧
    (txtNormalize s).toList.head? = some '"' ∧
    (txtNormalize s).toList.getLast? = some '"' ∧
    (¬(s.toList.head? = some '"' ∧ s.toList.getLast? = some '"') →
      txtNormalize s = String.mk ('"' :: (stripQuoteChars s.toList ++ ['"'])) ∧
      (∀ a, (stripQuoteChars s.toList).head? = some a → a ≠ '"') ∧
      (∀ a, (stripQuoteChars s.toList).getLast? = some a → a ≠ '"')) := by
  refine ⟨?_, txtNormalize_head s, txtNormalize_last s, ?_⟩
  · have h1 := txtNormalize_head s
    have h2 := txtNormalize_last s
    generalize hX : txtNormalize s = X at h1 h2 ⊢
    unfold txtNormalize
    rw [if_pos ⟨h1, h2⟩]
  · intro h
    refine ⟨?_, fun a ha => stripQuoteChars_head?_ne _ a ha,
      fun a ha => stripQuoteChars_getLast?_ne _ a ha⟩
    unfold txtNormalize
    rw [if_neg h]

/-- Witness for C7 as amended, at the spec's example input `hello`. -/
theorem claim_C7_amended_witness :
    txtNormalize (txtNormalize "hello") = txtNormalize "hello" ∧
    txtNormalize "hello"
      = String.mk ('"' :: (stripQuoteChars "hello".toList ++ ['"'])) ∧
    txtNormalize "hello" = "\"hello\"" := by
  refine ⟨(claim_C7_amended "hello").1,
    ((claim_C7_amended "hello").2.2.2 (by decide)).1, by decide⟩

/-- C8 counterexample: the claim says the canonicalized name always ends
with exactly one trailing separator, but `a..` already ends with a dot, is
returned unchanged, and ends with two. -/
theorem claim_C8_counterexample :
    _make_canonical "a.." = "a.." ∧
    (_make_canonical "a..").toList.reverse.take 2 = ['.', '.'] := by
  constructor <;> decide

/-- C8 as amended: `_make_canonical` is idempotent and its result always
ends with a trailing separator; a separator is appended only when absent,
and pre-existing trailing separators are preserved rather than collapsed,
so the result ends with exactly one separator only when the input did not
already end with several. -/
theorem claim_C8_amended (s : String) :
    _make_canonical (_make_canonical s) = _make_canonical s ∧
    (_make_canonical s).toList.getLast? = some '.' := by
  refine ⟨?_, make_canonical_trailing s⟩
  have h := make_canonical_trailing s
  generalize hX : _make_canonical s = X at h ⊢
  unfold _make_canonical
  rw [if_pos h]

/-- C10: `matches_existing_content` is reflexive — a desired entry stored
verbatim in the existing set (with at least three space-separated fields
when the type is SOA) always matches, so it is never classified as
needing addition. -/
theorem claim_C10_reflexive (rtype c : String) (existing : List String)
    (hmem : c ∈ existing) (hwf : rtype = "SOA" → 2 < (pyFields c).length) :
    matches_existing_content rtype c existing = some true :=
  matches_of_mem rtype c existing hmem hwf

/-- Witness for C10: a verbatim-stored SOA entry (and a verbatim-stored A
entry) match. -/
theorem claim_C10_reflexive_witness :
    matches_existing_content "SOA" "ns1 hostmaster 5 3600"
      ["ns1 hostmaster 5 3600"] = some true ∧
    matches_existing_content "A" "192.0.2.1" ["192.0.2.1", "192.0.2.2"]
      = some true :=
  ⟨claim_C10_reflexive "SOA" "ns1 hostmaster 5 3600"
      ["ns1 hostmaster 5 3600"] (by decide) (by decide),
    claim_C10_reflexive "A" "192.0.2.1" ["192.0.2.1", "192.0.2.2"]
      (by decide) (fun h => absurd h (by decide))⟩

/-! ## Reconciler machinery lemmas -/

theorem collect_eq_some (rtype : String) (existing : List String) (ttlNe : Bool)
    (content : List String)
    (h : ∀ c ∈ content, (matches_existing_content rtype c existing).isSome) :
    collectNoMatch rtype existing ttlNe content
      = some (content.filter fun c =>
          !((matches_existing_content rtype c existing).getD true) || ttlNe) := by
  induction content with
  | nil => rfl
  | cons c rest ih =>
    obtain ⟨m, hm⟩ := Option.isSome_iff_exists.mp (h c (List.mem_cons_self c rest))
    have ih' := ih fun x hx => h x (List.mem_cons_of_mem _ hx)
    simp only [collectNoMatch, hm, ih', List.filter_cons, Option.getD_some]

theorem presentTarget_eq_body (rtype : String) (exclusive : Bool)
    (content existing : List String) (ttlNe : Bool) (r0 : List String)
    (h : collectNoMatch rtype existing ttlNe content = some r0) :
    presentTarget rtype exclusive content existing ttlNe =
      (if (if existing.dedup.length > content.dedup.length && exclusive
           then content else r0).isEmpty
       then some none
       else some (some (if exclusive
         then ((if existing.dedup.length > content.dedup.length && exclusive
                then content else r0) ++ content).dedup
         else existing ++ (((if existing.dedup.length > content.dedup.length
                  && exclusive then content else r0) ++ content).dedup.filter
            (fun x => decide (x ∉ existing)))))) := by
  unfold presentTarget
  rw [h]

theorem presentTarget_empty (rtype : String) (exclusive : Bool)
    (existing : List String) (ttlNe : Bool) :
    presentTarget rtype exclusive [] existing ttlNe = some none := by
  rw [presentTarget_eq_body rtype exclusive [] existing ttlNe [] rfl]
  simp

theorem presentTarget_noop (rtype : String) (exclusive : Bool)
    (content existing : List String)
    (hall : ∀ c ∈ content, matches_existing_content rtype c existing = some true)
    (hsz : exclusive = true → existing.dedup.length ≤ content.dedup.length) :
    presentTarget rtype exclusive content existing false = some none := by
  have hsome : ∀ c ∈ content, (matches_existing_content rtype c existing).isSome :=
    fun c hc => by rw [hall c hc]; rfl
  have hfil : (content.filter fun c =>
      !((matches_existing_content rtype c existing).getD true) || false) = [] := by
    rw [List.filter_eq_nil_iff]
    intro a ha
    rw [hall a ha]
    simp
  rw [presentTarget_eq_body rtype exclusive content existing false _
    ((collect_eq_some rtype existing false content hsome).trans (by rw [hfil]))]
  have hcond : (decide (existing.dedup.length > content.dedup.length)
      && exclusive) = false := by
    cases he : exclusive
    · simp
    · have hle := hsz he
      simp only [Bool.and_true, decide_eq_false_iff_not]
      omega
  rw [hcond]
  simp

theorem presentTarget_cases (rtype : String) (exclusive : Bool)
    (content existing : List String) (ttlNe : Bool)
    (hsome : ∀ c ∈ content, (matches_existing_content rtype c existing).isSome) :
    presentTarget rtype exclusive content existing ttlNe = some none ∨
    ∃ r1, r1 ≠ [] ∧ (∀ x ∈ r1, x ∈ content) ∧
      presentTarget rtype exclusive content existing ttlNe
        = some (some (if exclusive then (r1 ++ content).dedup
            else existing ++ ((r1 ++ content).dedup.filter
              (fun x => decide (x ∉ existing))))) := by
  rw [presentTarget_eq_body rtype exclusive content existing ttlNe _
    (collect_eq_some rtype existing ttlNe content hsome)]
  generalize hr1 : (if existing.dedup.length > content.dedup.length && exclusive
      then content
      else content.filter fun c =>
        !((matches_existing_content rtype c existing).getD true) || ttlNe) = r1
  have hsub : ∀ x ∈ r1, x ∈ content := by
    intro x hx
    rw [← hr1] at hx
    split at hx
    · exact hx
    · exact List.mem_of_mem_filter hx
  by_cases he : r1.isEmpty
  · left
    rw [if_pos he]
  · right
    exact ⟨r1, fun e => he (e ▸ rfl), hsub, by rw [if_neg he]⟩

theorem decideAction_setCheck (p : Params) (b : Bool) (record : RrsetView) :
    decideAction (setCheck p b) record = decideAction p record := rfl

theorem ensure_of_noop (p : Params) (st : Option Rrset)
    (h : decideAction p (view st) = RAction.noop) :
    ensure p st = ⟨Except.ok (false, some (view st)), [Call.read], st⟩ := by
  simp only [ensure]
  rw [h]

theorem ensure_of_crash (p : Params) (st : Option Rrset)
    (h : decideAction p (view st) = RAction.crash) :
    ensure p st = ⟨Except.error (), [Call.read], st⟩ := by
  simp only [ensure]
  rw [h]

theorem ensure_of_update (p : Params) (st : Option Rrset) (rc : List String)
    (h : decideAction p (view st) = RAction.update rc) :
    ensure p st =
      ⟨Except.ok (true, some (view (if p.checkMode then st
          else replaceState rc p.ttl))),
        [Call.read] ++ (if p.checkMode then []
          else [Call.replace rc p.ttl]) ++ [Call.read],
        if p.checkMode then st else replaceState rc p.ttl⟩ := by
  simp only [ensure]
  rw [h]

theorem ensure_of_remove (p : Params) (st : Option Rrset)
    (h : decideAction p (view st) = RAction.remove) :
    ensure p st =
      ⟨Except.ok (true, none),
        [Call.read] ++ (if p.checkMode then [] else [Call.delete]),
        if p.checkMode then st else none⟩ := by
  simp only [ensure]
  rw [h]

theorem decideAction_present_missing (p : Params) (record : RrsetView)
    (hstate : p.state = "present") (he : record.records = []) :
    decideAction p record = RAction.update (sanitize p.rtype p.content) := by
  unfold decideAction
  rw [if_pos hstate, if_pos (by simp [List.isEmpty_iff, he])]

theorem decideAction_present_existing (p : Params) (record : RrsetView)
    (hstate : p.state = "present") (hne : record.records ≠ []) :
    decideAction p record =
      match presentTarget p.rtype p.exclusive (sanitize p.rtype p.content)
          record.records (decide (record.ttl ≠ some p.ttl)) with
      | none => RAction.crash
      | some none => RAction.noop
      | some (some rc) => RAction.update rc := by
  unfold decideAction
  rw [if_pos hstate, if_neg (by simp [List.isEmpty_iff, hne])]

theorem decideAction_absent_exclusive (p : Params) (record : RrsetView)
    (hstate : p.state = "absent") (hne : record.records ≠ [])
    (hex : p.exclusive = true) :
    decideAction p record = RAction.remove := by
  unfold decideAction
  rw [if_neg (by simp [hstate]), if_pos hstate,
    if_pos (by simp [List.isEmpty_iff, hne, hex])]

theorem decideAction_absent_missing (p : Params) (record : RrsetView)
    (hstate : p.state = "absent") (he : record.records = []) :
    decideAction p record = RAction.noop := by
  unfold decideAction
  rw [if_neg (by simp [hstate]), if_pos hstate,
    if_neg (by simp [List.isEmpty_iff, he]), if_neg (by simp [List.isEmpty_iff, he])]

theorem decideAction_other (p : Params)
    (hp : p.state ≠ "present") (ha : p.state ≠ "absent") (record : RrsetView) :
    decideAction p record = RAction.noop := by
  unfold decideAction
  rw [if_neg hp, if_neg ha]

theorem sanitize_soa (content : List String) : sanitize "SOA" content = content := by
  unfold sanitize
  rw [if_neg (by decide), if_neg (by decide)]

theorem wf_sanitize (p : Params) (hwf : wfContent p) :
    ∀ c ∈ sanitize p.rtype p.content, p.rtype = "SOA" → 2 < (pyFields c).length := by
  intro c hc hr
  rw [hr, sanitize_soa] at hc
  exact hwf hr c hc

theorem sanitize_eq_nil_iff (rtype : String) (content : List String) :
    sanitize rtype content = [] ↔ content = [] := by
  unfold sanitize
  split <;> split <;> simp

theorem dedup_length_eq_of_mem_iff (l₁ l₂ : List String)
    (h : ∀ x, x ∈ l₁ ↔ x ∈ l₂) : l₁.dedup.length = l₂.dedup.length := by
  have hfin : l₁.toFinset = l₂.toFinset := by
    apply Finset.ext
    intro x
    rw [List.mem_toFinset, List.mem_toFinset]
    exact h x
  rw [← List.card_toFinset, ← List.card_toFinset, hfin]

theorem ensure_round_noop (p : Params) (E2 : List String) (hne : E2 ≠ [])
    (hwf : wfContent p) (hstate : p.state = "present")
    (hmem : ∀ c ∈ sanitize p.rtype p.content, c ∈ E2)
    (hsz : p.exclusive = true →
      E2.dedup.length ≤ (sanitize p.rtype p.content).dedup.length) :
    ensure p (some ⟨E2, p.ttl⟩) =
      ⟨Except.ok (false, some ⟨E2, some p.ttl⟩), [Call.read], some ⟨E2, p.ttl⟩⟩ := by
  have hall : ∀ c ∈ sanitize p.rtype p.content,
      matches_existing_content p.rtype c E2 = some true :=
    fun c hc => matches_of_mem _ _ _ (hmem c hc) (fun hr => wf_sanitize p hwf c hc hr)
  have hact : decideAction p ⟨E2, some p.ttl⟩ = RAction.noop := by
    rw [decideAction_present_existing p ⟨E2, some p.ttl⟩ hstate hne]
    have httl : (decide ((⟨E2, some p.ttl⟩ : RrsetView).ttl ≠ some p.ttl)) = false := by
      simp
    rw [httl, presentTarget_noop p.rtype p.exclusive _ E2 hall hsz]
  rw [ensure_of_noop p (some ⟨E2, p.ttl⟩) hact]
  rfl

theorem update_facts_present (p : Params) (record : RrsetView) (rc : List String)
    (hstate : p.state = "present") (hwf : wfContent p)
    (hCne : sanitize p.rtype p.content ≠ [])
    (hact : decideAction p record = RAction.update rc) :
    rc ≠ [] ∧ (∀ c ∈ sanitize p.rtype p.content, c ∈ rc) ∧
      (p.exclusive = true →
        rc.dedup.length ≤ (sanitize p.rtype p.content).dedup.length) := by
  by_cases he : record.records = []
  · rw [decideAction_present_missing p record hstate he] at hact
    injection hact with hrc
    subst hrc
    exact ⟨hCne, fun c hc => hc, fun _ => le_refl _⟩
  · rw [decideAction_present_existing p record hstate he] at hact
    have hsome : ∀ c ∈ sanitize p.rtype p.content,
        (matches_existing_content p.rtype c record.records).isSome :=
      fun c hc => matches_isSome _ _ _ (fun hr => wf_sanitize p hwf c hc hr)
    rcases presentTarget_cases p.rtype p.exclusive (sanitize p.rtype p.content)
        record.records (decide (record.ttl ≠ some p.ttl)) hsome with
      hpt | ⟨r1, hr1ne, hr1sub, hpt⟩
    · rw [hpt] at hact
      simp at hact
    · rw [hpt] at hact
      injection hact with hrc
      by_cases hex : p.exclusive = true
      · rw [if_pos hex] at hrc
        subst hrc
        obtain ⟨c0, hc0⟩ := List.exists_mem_of_ne_nil _ hCne
        have hmemiff : ∀ x, x ∈ (r1 ++ sanitize p.rtype p.content).dedup
            ↔ x ∈ sanitize p.rtype p.content := by
          intro x
          rw [List.mem_dedup, List.mem_append]
          exact ⟨fun hx => hx.elim (fun h1 => hr1sub x h1) id, Or.inr⟩
        refine ⟨?_, ?_, ?_⟩
        · exact List.ne_nil_of_mem ((hmemiff c0).mpr hc0)
        · exact fun c hc => (hmemiff c).mpr hc
        · intro _
          simp only [List.dedup_idem]
          have hmemiff2 : ∀ x, x ∈ r1 ++ sanitize p.rtype p.content
              ↔ x ∈ sanitize p.rtype p.content := by
            intro x
            rw [List.mem_append]
            exact ⟨fun hx => hx.elim (fun h1 => hr1sub x h1) id, Or.inr⟩
          exact le_of_eq (dedup_length_eq_of_mem_iff _ _ hmemiff2)
      · rw [if_neg hex] at hrc
        subst hrc
        refine ⟨List.append_ne_nil_of_left_ne_nil he _, ?_,
          fun h => absurd h hex⟩
        intro c hc
        by_cases hcr : c ∈ record.records
        · exact List.mem_append_left _ hcr
        · refine List.mem_append_right _ ?_
          rw [List.mem_filter]
          exact ⟨List.mem_dedup.mpr (List.mem_append_right _ hc),
            decide_eq_true hcr⟩

theorem update_facts_absent (p : Params) (record : RrsetView) (rc : List String)
    (hstate : p.state = "absent")
    (hact : decideAction p record = RAction.update rc) :
    p.exclusive = false ∧ record.records ≠ [] ∧
      rc = record.records.filter
        (fun x => decide (x ∉ sanitize p.rtype p.content)) := by
  simp only [decideAction] at hact
  rw [if_neg (by simp [hstate]), if_pos hstate] at hact
  by_cases h1 : (!record.records.isEmpty && p.exclusive) = true
  · rw [if_pos h1] at hact
    simp at hact
  · rw [if_neg h1] at hact
    by_cases h2 : (!record.records.isEmpty && !p.exclusive) = true
    · rw [if_pos h2] at hact
      rw [Bool.and_eq_true, Bool.not_eq_true', Bool.not_eq_true'] at h2
      have hne : record.records ≠ [] := by
        simpa [List.isEmpty_iff] using h2.1
      by_cases h4 : (record.records.filter
          fun x => decide (x ∉ sanitize p.rtype p.content)).length
          ≠ record.records.length
      · rw [if_pos h4] at hact
        injection hact with h5
        exact ⟨h2.2, hne, h5.symm⟩
      · rw [if_neg h4] at hact
        simp at hact
    · rw [if_neg h2] at hact
      simp at hact

theorem decideAction_present_shape (p : Params) (record : RrsetView)
    (hstate : p.state = "present") (hwf : wfContent p) :
    decideAction p record ≠ RAction.crash ∧
      decideAction p record ≠ RAction.remove := by
  by_cases he : record.records = []
  · rw [decideAction_present_missing p record hstate he]
    exact ⟨by simp, by simp⟩
  · rw [decideAction_present_existing p record hstate he]
    have hsome : ∀ c ∈ sanitize p.rtype p.content,
        (matches_existing_content p.rtype c record.records).isSome :=
      fun c hc => matches_isSome _ _ _ (fun hr => wf_sanitize p hwf c hc hr)
    rcases presentTarget_cases p.rtype p.exclusive (sanitize p.rtype p.content)
        record.records (decide (record.ttl ≠ some p.ttl)) hsome with
      hpt | ⟨r1, _, _, hpt⟩ <;> rw [hpt] <;> exact ⟨by simp, by simp⟩

theorem decideAction_absent_not_crash (p : Params) (record : RrsetView)
    (hstate : p.state = "absent") :
    decideAction p record ≠ RAction.crash := by
  simp only [decideAction]
  rw [if_neg (by simp [hstate]), if_pos hstate]
  by_cases h1 : (!record.records.isEmpty && p.exclusive) = true
  · rw [if_pos h1]
    simp
  · rw [if_neg h1]
    by_cases h2 : (!record.records.isEmpty && !p.exclusive) = true
    · rw [if_pos h2]
      by_cases h4 : (record.records.filter
          fun x => decide (x ∉ sanitize p.rtype p.content)).length
          ≠ record.records.length
      · rw [if_pos h4]
        simp
      · rw [if_neg h4]
        simp
    · rw [if_neg h2]
      simp

/-! ## Claims about the reconciler (C1, C2, C3, C4, C5, C9) -/

/-- C9: in check mode `ensure` issues no mutating call, leaves the remote
recordset untouched, still performs the initial read and the full decision
logic, and returns exactly the `changed` flag a non-check invocation from
the same state would report — so remote failures in check mode can only
arise from reads. -/
theorem claim_C9_check_mode (p : Params) (st : Option Rrset) :
    (∀ c ∈ (ensure (setCheck p true) st).calls, c = Call.read) ∧
    Call.read ∈ (ensure (setCheck p true) st).calls ∧
    (ensure (setCheck p true) st).state = st ∧
    changedOf (ensure (setCheck p true) st)
      = changedOf (ensure (setCheck p false) st) := by
  cases hact : decideAction p (view st) with
  | crash =>
    rw [ensure_of_crash _ _ ((decideAction_setCheck p true (view st)).trans hact),
      ensure_of_crash _ _ ((decideAction_setCheck p false (view st)).trans hact)]
    refine ⟨?_, ?_, rfl, rfl⟩ <;> simp
  | noop =>
    rw [ensure_of_noop _ _ ((decideAction_setCheck p true (view st)).trans hact),
      ensure_of_noop _ _ ((decideAction_setCheck p false (view st)).trans hact)]
    refine ⟨?_, ?_, rfl, rfl⟩ <;> simp
  | update rc =>
    rw [ensure_of_update _ _ _ ((decideAction_setCheck p true (view st)).trans hact),
      ensure_of_update _ _ _ ((decideAction_setCheck p false (view st)).trans hact)]
    refine ⟨?_, ?_, ?_, rfl⟩ <;> simp [setCheck]
  | remove =>
    rw [ensure_of_remove _ _ ((decideAction_setCheck p true (view st)).trans hact),
      ensure_of_remove _ _ ((decideAction_setCheck p false (view st)).trans hact)]
    refine ⟨?_, ?_, ?_, rfl⟩ <;> simp [setCheck]

/-- C1 counterexample: for the DesiredState `state=present`,
`exclusive=true`, empty content list, reconciling against a missing
recordset returns `changed=true` and leaves the recordset missing (the
issued REPLACE carries no content), so the second invocation, reading
the state produced by the first, again returns `changed=true` — not
`changed=false` as the claim requires. -/
theorem claim_C1_counterexample :
    changedOf (ensure ⟨[], true, "A", 86400, "present", false⟩ none) = some true ∧
    (ensure ⟨[], true, "A", 86400, "present", false⟩ none).state = none ∧
    changedOf (ensure ⟨[], true, "A", 86400, "present", false⟩
      ((ensure ⟨[], true, "A", 86400, "present", false⟩ none).state))
      = some true := by
  refine ⟨by decide, by decide, by decide⟩

/-- C1 as amended: repeating an invocation of `ensure` with identical
inputs, the second invocation reading the recordset state produced by the
first, yields `changed=false` on the second call — provided the run is not
in check mode (check mode applies nothing, so a pending change stays
pending) and, when `state=present`, the desired content list is non-empty
(an empty present-state content list re-creates an empty recordset forever)
and SOA content strings carry the three fields `serial` requires (otherwise
the second call raises instead of returning). -/
theorem claim_C1_amended (p : Params) (st : Option Rrset)
    (hchk : p.checkMode = false)
    (hp : p.state = "present" → p.content ≠ [] ∧ wfContent p) :
    changedOf (ensure p ((ensure p st).state)) = some false := by
  by_cases hpres : p.state = "present"
  · obtain ⟨hCne0, hwf⟩ := hp hpres
    have hCne : sanitize p.rtype p.content ≠ [] := by
      intro e
      exact hCne0 ((sanitize_eq_nil_iff _ _).mp e)
    cases hact : decideAction p (view st) with
    | crash => exact absurd hact (decideAction_present_shape p (view st) hpres hwf).1
    | remove => exact absurd hact (decideAction_present_shape p (view st) hpres hwf).2
    | noop =>
      rw [ensure_of_noop p st hact]
      show changedOf (ensure p st) = some false
      rw [ensure_of_noop p st hact]
      rfl
    | update rc =>
      obtain ⟨hrcne, hmem, hsz⟩ :=
        update_facts_present p (view st) rc hpres hwf hCne hact
      rw [ensure_of_update p st rc hact]
      show changedOf (ensure p (if p.checkMode then st
        else replaceState rc p.ttl)) = some false
      have hst : (if p.checkMode then st else replaceState rc p.ttl)
          = some ⟨rc, p.ttl⟩ := by
        rw [if_neg (by simp [hchk])]
        unfold replaceState
        rw [if_neg (by simp [List.isEmpty_iff, hrcne])]
      rw [hst, ensure_round_noop p rc hrcne hwf hpres hmem hsz]
      rfl
  · by_cases habs : p.state = "absent"
    · cases hact : decideAction p (view st) with
      | crash => exact absurd hact (decideAction_absent_not_crash p (view st) habs)
      | noop =>
        rw [ensure_of_noop p st hact]
        show changedOf (ensure p st) = some false
        rw [ensure_of_noop p st hact]
        rfl
      | update rc =>
        obtain ⟨hex, hne, hrc⟩ := update_facts_absent p (view st) rc habs hact
        rw [ensure_of_update p st rc hact]
        show changedOf (ensure p (if p.checkMode then st
          else replaceState rc p.ttl)) = some false
        rw [if_neg (by simp [hchk])]
        by_cases hrcnil : rc = []
        · rw [hrcnil]
          show changedOf (ensure p none) = some false
          rw [ensure_of_noop p none
            (decideAction_absent_missing p (view none) habs rfl)]
          rfl
        · have hst : replaceState rc p.ttl = some ⟨rc, p.ttl⟩ := by
            unfold replaceState
            rw [if_neg (by simp [List.isEmpty_iff, hrcnil])]
          rw [hst]
          have hfix : rc.filter
              (fun x => decide (x ∉ sanitize p.rtype p.content)) = rc := by
            rw [List.filter_eq_self]
            intro a ha
            rw [hrc] at ha
            exact (List.mem_filter.mp ha).2
          have hact2 : decideAction p ⟨rc, some p.ttl⟩ = RAction.noop := by
            simp only [decideAction]
            rw [if_neg (by simp [habs]), if_pos habs,
              if_neg (by simp [hex]),
              if_pos (by simp [List.isEmpty_iff, hrcnil, hex])]
            rw [hfix]
            simp
          rw [ensure_of_noop p (some ⟨rc, p.ttl⟩) hact2]
          rfl
      | remove =>
        rw [ensure_of_remove p st hact]
        show changedOf (ensure p (if p.checkMode then st else none)) = some false
        rw [if_neg (by simp [hchk])]
        rw [ensure_of_noop p none
          (decideAction_absent_missing p (view none) habs rfl)]
        rfl
    · have hact : decideAction p (view st) = RAction.noop :=
        decideAction_other p hpres habs (view st)
      rw [ensure_of_noop p st hact]
      show changedOf (ensure p st) = some false
      rw [ensure_of_noop p st hact]
      rfl

/-- Witness for C1 as amended: an exclusive A-record creation really does
report `changed=false` on the second invocation. -/
theorem claim_C1_amended_witness :
    changedOf (ensure ⟨["192.0.2.10"], true, "A", 3600, "present", false⟩
      ((ensure ⟨["192.0.2.10"], true, "A", 3600, "present", false⟩ none).state))
      = some false :=
  claim_C1_amended ⟨["192.0.2.10"], true, "A", 3600, "present", false⟩ none rfl
    (fun _ => ⟨by decide, fun h => absurd h (by decide)⟩)

theorem pred_true_iff (rtype : String) (E : List String) (tn : Bool) (c : String)
    (hs : (matches_existing_content rtype c E).isSome) :
    ((!((matches_existing_content rtype c E).getD true) || tn) = true)
      ↔ (matches_existing_content rtype c E ≠ some true ∨ tn = true) := by
  obtain ⟨b, hb⟩ := Option.isSome_iff_exists.mp hs
  rw [hb]
  cases b <;> simp

theorem decideAction_some (p : Params) (r : Rrset)
    (hstate : p.state = "present") (hne : r.records ≠ []) :
    decideAction p (view (some r)) =
      match presentTarget p.rtype p.exclusive (sanitize p.rtype p.content)
          r.records (decide (some r.ttl ≠ some p.ttl)) with
      | none => RAction.crash
      | some none => RAction.noop
      | some (some rc) => RAction.update rc :=
  decideAction_present_existing p (view (some r)) hstate hne

theorem ensure_update_run (p : Params) (r : Rrset) (rc : List String)
    (hchk : p.checkMode = false) (hrcne : rc ≠ [])
    (hact : decideAction p (view (some r)) = RAction.update rc) :
    ensure p (some r) = ⟨Except.ok (true, some ⟨rc, some p.ttl⟩),
      [Call.read, Call.replace rc p.ttl, Call.read], some ⟨rc, p.ttl⟩⟩ := by
  rw [ensure_of_update p (some r) rc hact, hchk]
  have hrs : replaceState rc p.ttl = some ⟨rc, p.ttl⟩ := by
    unfold replaceState
    rw [if_neg (by simp [List.isEmpty_iff, hrcne])]
  show (⟨Except.ok (true, some (view (replaceState rc p.ttl))),
    [Call.read] ++ [Call.replace rc p.ttl] ++ [Call.read],
    replaceState rc p.ttl⟩ : SimOut) = _
  rw [hrs]
  rfl

/-- C2 counterexample: with an SOA recordset whose desired serial is `0`,
the desired content differs from the stored content as a string set and
the TTLs agree, yet `ensure` issues no mutating call and reports
`changed=false` — the serial-agnostic comparator, not string-set equality,
decides the exclusive no-op. -/
theorem claim_C2_counterexample :
    changedOf (ensure ⟨["ns1 hm 0 3600"], true, "SOA", 86400, "present", false⟩
      (some ⟨["ns1 hm 99 3600"], 86400⟩)) = some false ∧
    (ensure ⟨["ns1 hm 0 3600"], true, "SOA", 86400, "present", false⟩
      (some ⟨["ns1 hm 99 3600"], 86400⟩)).calls = [Call.read] ∧
    "ns1 hm 0 3600" ∉ (["ns1 hm 99 3600"] : List String) := by
  refine ⟨by decide, by decide, by decide⟩

/-- C2 as amended: for `state=present`, `exclusive=true` against an
existing recordset, `ensure` replaces the recordset with exactly the
deduplicated desired content and returns `changed=true` precisely when the
desired content is non-empty and (the TTL differs, or some desired entry
fails `matches_existing_content` — serial-agnostic for SOA serial `0`, not
plain string-set inequality — or the existing set has strictly more
distinct entries than the desired set); otherwise it makes no mutating
call and returns `changed=false` with the current snapshot.  In
particular an empty desired content list is silently a no-op, and a
desired SOA entry matching only up to serial does not trigger a rewrite. -/
theorem claim_C2_amended (p : Params) (r : Rrset)
    (hstate : p.state = "present") (hexcl : p.exclusive = true)
    (hchk : p.checkMode = false) (hne : r.records ≠ [])
    (hwf : wfContent p) :
    (exclusiveTrigger p r →
      ∃ rc, rc ≠ [] ∧ rc.Nodup ∧
        (∀ x, x ∈ rc ↔ x ∈ sanitize p.rtype p.content) ∧
        ensure p (some r) = ⟨Except.ok (true, some ⟨rc, some p.ttl⟩),
          [Call.read, Call.replace rc p.ttl, Call.read], some ⟨rc, p.ttl⟩⟩) ∧
    (¬ exclusiveTrigger p r →
      ensure p (some r) = ⟨Except.ok (false, some ⟨r.records, some r.ttl⟩),
        [Call.read], some r⟩) := by
  have hsome : ∀ c ∈ sanitize p.rtype p.content,
      (matches_existing_content p.rtype c r.records).isSome :=
    fun c hc => matches_isSome _ _ _ (fun hr => wf_sanitize p hwf c hc hr)
  have hcollect := collect_eq_some p.rtype r.records
    (decide (some r.ttl ≠ some p.ttl)) (sanitize p.rtype p.content) hsome
  have hbody := presentTarget_eq_body p.rtype p.exclusive
    (sanitize p.rtype p.content) r.records
    (decide (some r.ttl ≠ some p.ttl)) _ hcollect
  rw [hexcl] at hbody
  simp only [Bool.and_true] at hbody
  rw [if_pos (trivial : True)] at hbody
  by_cases hsz : decide (r.records.dedup.length
      > (sanitize p.rtype p.content).dedup.length) = true
  · rw [if_pos hsz] at hbody
    by_cases hCnil : sanitize p.rtype p.content = []
    · constructor
      · rintro ⟨hCne, _⟩
        exact absurd hCnil hCne
      · intro _
        have hpt : presentTarget p.rtype true (sanitize p.rtype p.content)
            r.records (decide (some r.ttl ≠ some p.ttl)) = some none := by
          rw [hbody, if_pos (by simp [hCnil])]
        have hact : decideAction p (view (some r)) = RAction.noop := by
          rw [decideAction_some p r hstate hne, hexcl, hpt]
        rw [ensure_of_noop p (some r) hact]
        rfl
    · have htrig : exclusiveTrigger p r :=
        ⟨hCnil, Or.inr (Or.inr (by simpa using hsz))⟩
      constructor
      · intro _
        have hrcne : ((sanitize p.rtype p.content
            ++ sanitize p.rtype p.content).dedup) ≠ [] := by
          obtain ⟨c0, hc0⟩ := List.exists_mem_of_ne_nil _ hCnil
          exact List.ne_nil_of_mem
            (List.mem_dedup.mpr (List.mem_append_left _ hc0))
        have hpt : presentTarget p.rtype true (sanitize p.rtype p.content)
            r.records (decide (some r.ttl ≠ some p.ttl))
            = some (some ((sanitize p.rtype p.content
                ++ sanitize p.rtype p.content).dedup)) := by
          rw [hbody, if_neg (by simp [List.isEmpty_iff, hCnil])]
        have hact : decideAction p (view (some r))
            = RAction.update ((sanitize p.rtype p.content
                ++ sanitize p.rtype p.content).dedup) := by
          rw [decideAction_some p r hstate hne, hexcl, hpt]
        refine ⟨_, hrcne, List.nodup_dedup _, ?_,
          ensure_update_run p r _ hchk hrcne hact⟩
        intro x
        rw [List.mem_dedup, List.mem_append]
        exact ⟨fun h => h.elim id id, Or.inl⟩
      · intro hntrig
        exact absurd htrig hntrig
  · rw [if_neg hsz] at hbody
    set F := (sanitize p.rtype p.content).filter (fun c =>
      !((matches_existing_content p.rtype c r.records).getD true)
        || decide (some r.ttl ≠ some p.ttl)) with hFdef
    have hFsub : ∀ x ∈ F, x ∈ sanitize p.rtype p.content := by
      intro x hx
      rw [hFdef] at hx
      exact List.mem_of_mem_filter hx
    have htr : exclusiveTrigger p r ↔ F ≠ [] := by
      constructor
      · rintro ⟨hCne, hdisj⟩
        rcases hdisj with httl | ⟨c, hc, hcne⟩ | hlt
        · obtain ⟨c0, hc0⟩ := List.exists_mem_of_ne_nil _ hCne
          intro hFnil
          rw [hFdef] at hFnil
          exact List.filter_eq_nil_iff.mp hFnil c0 hc0
            ((pred_true_iff p.rtype r.records _ c0 (hsome c0 hc0)).mpr
              (Or.inr (by simp [httl])))
        · intro hFnil
          rw [hFdef] at hFnil
          exact List.filter_eq_nil_iff.mp hFnil c hc
            ((pred_true_iff p.rtype r.records _ c (hsome c hc)).mpr
              (Or.inl hcne))
        · exact absurd hlt (by simpa using hsz)
      · intro hFne
        have hex2 : ∃ c ∈ sanitize p.rtype p.content,
            (!((matches_existing_content p.rtype c r.records).getD true)
              || decide (some r.ttl ≠ some p.ttl)) = true := by
          by_contra hno
          push_neg at hno
          apply hFne
          rw [hFdef]
          exact List.filter_eq_nil_iff.mpr hno
        obtain ⟨c, hc, hp⟩ := hex2
        rcases (pred_true_iff p.rtype r.records _ c (hsome c hc)).mp hp with
          h1 | h2
        · exact ⟨List.ne_nil_of_mem hc, Or.inr (Or.inl ⟨c, hc, h1⟩)⟩
        · exact ⟨List.ne_nil_of_mem hc, Or.inl (by simpa using h2)⟩
    by_cases hFnil : F = []
    · have hntrig : ¬ exclusiveTrigger p r := fun ht => (htr.mp ht) hFnil
      constructor
      · intro htrig
        exact absurd htrig hntrig
      · intro _
        have hpt : presentTarget p.rtype true (sanitize p.rtype p.content)
            r.records (decide (some r.ttl ≠ some p.ttl)) = some none := by
          rw [hbody, if_pos (by simp [hFnil])]
        have hact : decideAction p (view (some r)) = RAction.noop := by
          rw [decideAction_some p r hstate hne, hexcl, hpt]
        rw [ensure_of_noop p (some r) hact]
        rfl
    · have htrig := htr.mpr hFnil
      constructor
      · intro _
        have hrcne : (F ++ sanitize p.rtype p.content).dedup ≠ [] := by
          obtain ⟨c0, hc0⟩ := List.exists_mem_of_ne_nil _ hFnil
          exact List.ne_nil_of_mem
            (List.mem_dedup.mpr (List.mem_append_left _ hc0))
        have hpt : presentTarget p.rtype true (sanitize p.rtype p.content)
            r.records (decide (some r.ttl ≠ some p.ttl))
            = some (some ((F ++ sanitize p.rtype p.content).dedup)) := by
          rw [hbody, if_neg (by simp [List.isEmpty_iff, hFnil])]
        have hact : decideAction p (view (some r))
            = RAction.update ((F ++ sanitize p.rtype p.content).dedup) := by
          rw [decideAction_some p r hstate hne, hexcl, hpt]
        refine ⟨_, hrcne, List.nodup_dedup _, ?_,
          ensure_update_run p r _ hchk hrcne hact⟩
        intro x
        rw [List.mem_dedup, List.mem_append]
        exact ⟨fun h => h.elim (hFsub x) id, Or.inr⟩
      · intro hntrig
        exact absurd htrig hntrig

/-- Witness for C2 as amended, at the spec's own exclusive-convergence
example: desired `{10.0.0.1, 10.0.0.2}` against existing
`{10.0.0.1, 10.0.0.2, 10.0.0.3}` (same TTL) is rewritten to exactly the
desired set with `changed=true`; against existing `{10.0.0.1, 10.0.0.2}`
with the same TTL, nothing is mutated and `changed=false`. -/
theorem claim_C2_amended_witness :
    (∃ rc, rc ≠ [] ∧ rc.Nodup ∧
      (∀ x, x ∈ rc ↔ x ∈ sanitize "A" ["10.0.0.1", "10.0.0.2"]) ∧
      ensure ⟨["10.0.0.1", "10.0.0.2"], true, "A", 3600, "present", false⟩
          (some ⟨["10.0.0.1", "10.0.0.2", "10.0.0.3"], 3600⟩)
        = ⟨Except.ok (true, some ⟨rc, some 3600⟩),
          [Call.read, Call.replace rc 3600, Call.read], some ⟨rc, 3600⟩⟩) ∧
    ensure ⟨["10.0.0.1", "10.0.0.2"], true, "A", 3600, "present", false⟩
        (some ⟨["10.0.0.1", "10.0.0.2"], 3600⟩)
      = ⟨Except.ok (false, some ⟨["10.0.0.1", "10.0.0.2"], some 3600⟩),
        [Call.read], some ⟨["10.0.0.1", "10.0.0.2"], 3600⟩⟩ := by
  constructor
  · exact (claim_C2_amended ⟨["10.0.0.1", "10.0.0.2"], true, "A", 3600,
      "present", false⟩ ⟨["10.0.0.1", "10.0.0.2", "10.0.0.3"], 3600⟩
      rfl rfl rfl (by decide) (fun h => absurd h (by decide))).1
      ⟨by decide, Or.inr (Or.inr (by decide))⟩
  · exact (claim_C2_amended ⟨["10.0.0.1", "10.0.0.2"], true, "A", 3600,
      "present", false⟩ ⟨["10.0.0.1", "10.0.0.2"], 3600⟩
      rfl rfl rfl (by decide) (fun h => absurd h (by decide))).2
      (by
        rintro ⟨-, h | h | h⟩
        · exact h rfl
        · revert h
          decide
        · revert h
          decide)

/-- C3 counterexample: on a TTL-only mismatch for an SOA recordset, the
desired serial-`0` entry already matches per `matches_existing_content`
(so the claim's union — existing plus non-matching desired entries — is
just the existing content), yet the submitted REPLACE also appends the
matching-but-not-literally-stored desired entry. -/
theorem claim_C3_counterexample :
    (ensure ⟨["a b 0 c"], false, "SOA", 86400, "present", false⟩
      (some ⟨["a b 5 c"], 3600⟩)).calls
      = [Call.read, Call.replace ["a b 5 c", "a b 0 c"] 86400, Call.read] ∧
    matches_existing_content "SOA" "a b 0 c" ["a b 5 c"] = some true ∧
    "a b 0 c" ∉ (["a b 5 c"] : List String) := by
  refine ⟨by decide, by decide, by decide⟩

/-- C3 as amended: for `state=present`, `exclusive=false` against an
existing recordset, `ensure` rewrites precisely when the desired content
is non-empty and (the TTL differs or some desired entry fails
`matches_existing_content`); the submitted content is the existing
entries, preserved untouched in order, followed by the deduplicated
desired entries not literally present in the existing list — which may
include entries that match only per the serial-agnostic SOA comparator —
and `changed=true` is returned; otherwise no mutating call is made and
`changed=false` is returned with the current snapshot. -/
theorem claim_C3_amended (p : Params) (r : Rrset)
    (hstate : p.state = "present") (hexcl : p.exclusive = false)
    (hchk : p.checkMode = false) (hne : r.records ≠ [])
    (hwf : wfContent p) :
    (mergeTrigger p r →
      ∃ extra, extra.Nodup ∧ (∀ x ∈ extra, x ∉ r.records) ∧
        (∀ x, x ∈ r.records ++ extra ↔
          (x ∈ r.records ∨ x ∈ sanitize p.rtype p.content)) ∧
        ensure p (some r)
          = ⟨Except.ok (true, some ⟨r.records ++ extra, some p.ttl⟩),
            [Call.read, Call.replace (r.records ++ extra) p.ttl, Call.read],
            some ⟨r.records ++ extra, p.ttl⟩⟩) ∧
    (¬ mergeTrigger p r →
      ensure p (some r) = ⟨Except.ok (false, some ⟨r.records, some r.ttl⟩),
        [Call.read], some r⟩) := by
  have hsome : ∀ c ∈ sanitize p.rtype p.content,
      (matches_existing_content p.rtype c r.records).isSome :=
    fun c hc => matches_isSome _ _ _ (fun hr => wf_sanitize p hwf c hc hr)
  have hcollect := collect_eq_some p.rtype r.records
    (decide (some r.ttl ≠ some p.ttl)) (sanitize p.rtype p.content) hsome
  have hbody := presentTarget_eq_body p.rtype p.exclusive
    (sanitize p.rtype p.content) r.records
    (decide (some r.ttl ≠ some p.ttl)) _ hcollect
  rw [hexcl] at hbody
  simp only [Bool.and_false] at hbody
  set F := (sanitize p.rtype p.content).filter (fun c =>
    !((matches_existing_content p.rtype c r.records).getD true)
      || decide (some r.ttl ≠ some p.ttl)) with hFdef
  have hFsub : ∀ x ∈ F, x ∈ sanitize p.rtype p.content := by
    intro x hx
    rw [hFdef] at hx
    exact List.mem_of_mem_filter hx
  have htr : mergeTrigger p r ↔ F ≠ [] := by
    constructor
    · rintro ⟨hCne, hdisj⟩
      rcases hdisj with httl | ⟨c, hc, hcne⟩
      · obtain ⟨c0, hc0⟩ := List.exists_mem_of_ne_nil _ hCne
        intro hFnil
        rw [hFdef] at hFnil
        exact List.filter_eq_nil_iff.mp hFnil c0 hc0
          ((pred_true_iff p.rtype r.records _ c0 (hsome c0 hc0)).mpr
            (Or.inr (by simp [httl])))
      · intro hFnil
        rw [hFdef] at hFnil
        exact List.filter_eq_nil_iff.mp hFnil c hc
          ((pred_true_iff p.rtype r.records _ c (hsome c hc)).mpr
            (Or.inl hcne))
    · intro hFne
      have hex2 : ∃ c ∈ sanitize p.rtype p.content,
          (!((matches_existing_content p.rtype c r.records).getD true)
            || decide (some r.ttl ≠ some p.ttl)) = true := by
        by_contra hno
        push_neg at hno
        apply hFne
        rw [hFdef]
        exact List.filter_eq_nil_iff.mpr hno
      obtain ⟨c, hc, hp⟩ := hex2
      rcases (pred_true_iff p.rtype r.records _ c (hsome c hc)).mp hp with
        h1 | h2
      · exact ⟨List.ne_nil_of_mem hc, Or.inr ⟨c, hc, h1⟩⟩
      · exact ⟨List.ne_nil_of_mem hc, Or.inl (by simpa using h2)⟩
  by_cases hFnil : F = []
  · have hntrig : ¬ mergeTrigger p r := fun ht => (htr.mp ht) hFnil
    constructor
    · intro htrig
      exact absurd htrig hntrig
    · intro _
      have hpt : presentTarget p.rtype false (sanitize p.rtype p.content)
          r.records (decide (some r.ttl ≠ some p.ttl)) = some none := by
        rw [hbody, if_pos (by simp [hFnil])]
      have hact : decideAction p (view (some r)) = RAction.noop := by
        rw [decideAction_some p r hstate hne, hexcl, hpt]
      rw [ensure_of_noop p (some r) hact]
      rfl
  · have htrig := htr.mpr hFnil
    constructor
    · intro _
      have hrcne : r.records ++ ((F ++ sanitize p.rtype p.content).dedup.filter
          (fun x => decide (x ∉ r.records))) ≠ [] :=
        List.append_ne_nil_of_left_ne_nil hne _
      have hpt : presentTarget p.rtype false (sanitize p.rtype p.content)
          r.records (decide (some r.ttl ≠ some p.ttl))
          = some (some (r.records
            ++ ((F ++ sanitize p.rtype p.content).dedup.filter
              (fun x => decide (x ∉ r.records))))) := by
        rw [hbody, if_neg (by simp [List.isEmpty_iff, hFnil])]
        rfl
      have hact : decideAction p (view (some r))
          = RAction.update (r.records
            ++ ((F ++ sanitize p.rtype p.content).dedup.filter
              (fun x => decide (x ∉ r.records)))) := by
        rw [decideAction_some p r hstate hne, hexcl, hpt]
      refine ⟨_, (List.nodup_dedup _).filter _, ?_, ?_,
        ensure_update_run p r _ hchk hrcne hact⟩
      · intro x hx
        have := (List.mem_filter.mp hx).2
        simpa using this
      · intro x
        rw [List.mem_append]
        constructor
        · rintro (hx | hx)
          · exact Or.inl hx
          · have hmem := List.mem_dedup.mp (List.mem_filter.mp hx).1
            rcases List.mem_append.mp hmem with h1 | h2
            · exact Or.inr (hFsub x h1)
            · exact Or.inr h2
        · rintro (hx | hx)
          · exact Or.inl hx
          · by_cases hxr : x ∈ r.records
            · exact Or.inl hxr
            · refine Or.inr (List.mem_filter.mpr ⟨?_, decide_eq_true hxr⟩)
              exact List.mem_dedup.mpr (List.mem_append_right _ hx)
    · intro hntrig
      exact absurd htrig hntrig

/-- Witness for C3 as amended, at the spec's non-exclusive merge example:
desired `{b}` against existing `{a}` (same TTL) is rewritten to
`{a, b}` with `changed=true`; desired `{a}` against existing `{a}` is a
no-op with `changed=false`. -/
theorem claim_C3_amended_witness :
    (∃ extra, extra.Nodup ∧ (∀ x ∈ extra, x ∉ (["a"] : List String)) ∧
      (∀ x, x ∈ (["a"] : List String) ++ extra ↔
        (x ∈ (["a"] : List String) ∨ x ∈ sanitize "A" ["b"])) ∧
      ensure ⟨["b"], false, "A", 3600, "present", false⟩ (some ⟨["a"], 3600⟩)
        = ⟨Except.ok (true, some ⟨["a"] ++ extra, some 3600⟩),
          [Call.read, Call.replace (["a"] ++ extra) 3600, Call.read],
          some ⟨["a"] ++ extra, 3600⟩⟩) ∧
    ensure ⟨["a"], false, "A", 3600, "present", false⟩ (some ⟨["a"], 3600⟩)
      = ⟨Except.ok (false, some ⟨["a"], some 3600⟩),
        [Call.read], some ⟨["a"], 3600⟩⟩ := by
  constructor
  · exact (claim_C3_amended ⟨["b"], false, "A", 3600, "present", false⟩
      ⟨["a"], 3600⟩ rfl rfl rfl (by decide)
      (fun h => absurd h (by decide))).1
      ⟨by decide, Or.inr ⟨"b", by decide, by decide⟩⟩
  · exact (claim_C3_amended ⟨["a"], false, "A", 3600, "present", false⟩
      ⟨["a"], 3600⟩ rfl rfl rfl (by decide)
      (fun h => absurd h (by decide))).2
      (by
        rintro ⟨-, h | h⟩
        · exact h rfl
        · revert h
          decide)

/-- C4 (code-bug evidence): with `state=absent`, `exclusive=false` and a
desired content list covering every existing entry, the remainder is
empty, and the code issues a REPLACE carrying an empty content list and
returns a re-read snapshot — it never issues the DELETE call (the delete
branch in the source sits unreachably after a `return`).  The claim (and
the spec) say the recordset must be deleted entirely rather than
rewritten with an empty list. -/
theorem claim_C4_bug_eval :
    ensure ⟨["192.0.2.1", "192.0.2.2"], false, "A", 86400, "absent", false⟩
        (some ⟨["192.0.2.1", "192.0.2.2"], 86400⟩)
      = ⟨Except.ok (true, some ⟨[], none⟩),
        [Call.read, Call.replace [] 86400, Call.read], none⟩ ∧
    Call.delete ∉ (ensure ⟨["192.0.2.1", "192.0.2.2"], false, "A", 86400,
      "absent", false⟩ (some ⟨["192.0.2.1", "192.0.2.2"], 86400⟩)).calls ∧
    (ensure ⟨["192.0.2.1"], false, "A", 86400, "absent", false⟩
        (some ⟨["192.0.2.1", "192.0.2.2"], 86400⟩)).calls
      = [Call.read, Call.replace ["192.0.2.2"] 86400, Call.read] ∧
    changedOf (ensure ⟨["192.0.2.9"], false, "A", 86400, "absent", false⟩
      (some ⟨["192.0.2.1", "192.0.2.2"], 86400⟩)) = some false := by
  refine ⟨by rfl, by decide, by decide, by decide⟩

/-- C5 counterexample: a `state=present`, `exclusive=true` request with an
empty content list against an existing recordset is not rejected before
any remote call — the initial read is performed, no error is raised, and
the invocation silently returns `changed=false` with the current
snapshot. -/
theorem claim_C5_counterexample :
    (ensure ⟨[], true, "A", 3600, "present", false⟩
      (some ⟨["192.0.2.7"], 3600⟩)).result
      = Except.ok (false, some ⟨["192.0.2.7"], some 3600⟩) ∧
    (ensure ⟨[], true, "A", 3600, "present", false⟩
      (some ⟨["192.0.2.7"], 3600⟩)).calls = [Call.read] := by
  refine ⟨by rfl, by decide⟩

/-- C5 as amended: a `state=present`, `exclusive=true` request with an
empty desired content list is never rejected: the initial read always
happens, and then — if the recordset exists — no mutating call is made
and `changed=false` is returned with the current snapshot; if the
recordset does not exist, the code even issues a REPLACE carrying an
empty content list (a create with no records) and returns `changed=true`.
No `InvalidRequestError` (or any error) is raised. -/
theorem claim_C5_amended (p : Params) (st : Option Rrset)
    (hstate : p.state = "present") (hexcl : p.exclusive = true)
    (hcex : p.content = []) (hchk : p.checkMode = false) :
    ((view st).records ≠ [] →
      ensure p st = ⟨Except.ok (false, some (view st)), [Call.read], st⟩) ∧
    ((view st).records = [] →
      ensure p st = ⟨Except.ok (true, some ⟨[], none⟩),
        [Call.read, Call.replace [] p.ttl, Call.read], none⟩) := by
  have hsan : sanitize p.rtype p.content = [] := by
    rw [hcex]
    exact (sanitize_eq_nil_iff _ _).mpr rfl
  constructor
  · intro hne
    have hact : decideAction p (view st) = RAction.noop := by
      rw [decideAction_present_existing p (view st) hstate hne, hsan,
        presentTarget_empty]
    exact ensure_of_noop p st hact
  · intro he
    have hact : decideAction p (view st) = RAction.update [] := by
      rw [decideAction_present_missing p (view st) hstate he, hsan]
    rw [ensure_of_update p st [] hact, hchk]
    rfl

/-- Witness for C5 as amended: both branches at concrete inputs — an
existing recordset is left alone with `changed=false`; a missing one gets
an empty REPLACE and `changed=true`. -/
theorem claim_C5_amended_witness :
    ensure ⟨[], true, "A", 3600, "present", false⟩ (some ⟨["192.0.2.8"], 3600⟩)
      = ⟨Except.ok (false, some ⟨["192.0.2.8"], some 3600⟩), [Call.read],
        some ⟨["192.0.2.8"], 3600⟩⟩ ∧
    ensure ⟨[], true, "A", 3600, "present", false⟩ none
      = ⟨Except.ok (true, some ⟨[], none⟩),
        [Call.read, Call.replace [] 3600, Call.read], none⟩ :=
  ⟨(claim_C5_amended ⟨[], true, "A", 3600, "present", false⟩
      (some ⟨["192.0.2.8"], 3600⟩) rfl rfl rfl rfl).1 (by decide),
    (claim_C5_amended ⟨[], true, "A", 3600, "present", false⟩
      none rfl rfl rfl rfl).2 rfl⟩
